import Mathlib

/- Verification of the transfer-monitoring and completion-arbitration subsystem of
   Android-Archiver (Android-Archiver.py), as a shallow embedding.  Machine times
   and sizes are modelled over ℚ; subprocess and filesystem interaction is
   modelled as explicit environment traces. -/

namespace Archiver

/-- Python str.strip as used on diagnostic lines: drop whitespace from both ends. -/
def pystrip (s : String) : String :=
  ⟨((s.data.dropWhile Char.isWhitespace).reverse.dropWhile Char.isWhitespace).reverse⟩

/-- Python str.lower, ASCII case folding as applied by the source to marker text. -/
def pylower (s : String) : String := ⟨s.data.map Char.toLower⟩

/-- Substring occurrence on character lists: true iff pat occurs contiguously. -/
def containsSub (pat : List Char) : List Char → Bool
  | [] => pat.isEmpty
  | c :: t => pat.isPrefixOf (c :: t) || containsSub pat t

/-- Python substring operator: pat in s. -/
def strContains (s pat : String) : Bool := containsSub pat.data s.data

/-- the marker that the source matches case-sensitively (line 382). -/
def permission_marker : String := "Permission denied"

/-- the marker matched against the lowercased line (line 382). -/
def failed_marker : String := "failed"

/-- the second marker matched against the lowercased line (line 382). -/
def cannot_marker : String := "cannot"

/-- failure-marker test of log_errors_thread, line 382 of the source, exactly:
    'Permission denied' in line or 'failed' in line.lower() or 'cannot' in line.lower() -/
def failure_marker (line : String) : Bool :=
  strContains line permission_marker || strContains (pylower line) failed_marker ||
    strContains (pylower line) cannot_marker

/-- marker test as the spec words it: a case-insensitive substring match against
    the fixed markers permission-denied, failed, cannot.  Kept separate from
    failure_marker so the two can be compared. -/
def spec_failure_marker (line : String) : Bool :=
  strContains (pylower line) (pylower permission_marker) ||
    strContains (pylower line) failed_marker ||
    strContains (pylower line) cannot_marker

/-- log_errors_thread (lines 376-387): each line of the diagnostic stream is
    stripped; a nonempty stripped line passing the marker test is appended to the
    log as one record with a timestamp prefix and flushed; every other line is
    discarded.  Input is the (timestamp-at-read, raw line) stream; the result is
    the list of appended log records, in order. -/
def log_errors_thread (entries : List (String × String)) : List String :=
  entries.filterMap fun p =>
    let line := pystrip p.2
    if line ≠ "" ∧ failure_marker line = true then
      some ("[" ++ p.1 ++ "] " ++ line ++ "\n")
    else none

/-- file name of the diagnostic log, skipped by the sampler (line 400). -/
def error_log_name : String := "backup_errors.log"

/-- one event observed while walking the destination tree: a file together with
    its stat result (none when getmtime or getsize raises and the per-file
    handler swallows the error), or an error escaping to the outer handler of
    get_current_backup_size. -/
inductive WalkEv where
  | file (name : String) (stat : Option (ℚ × Nat)) : WalkEv
  | abort : WalkEv
deriving DecidableEq

/-- get_current_backup_size (lines 389-415): walk the destination tree in order,
    skip the file named backup_errors.log, skip files whose stat fails, add size
    and count of every file with mtime at or after backup_start_time; a
    FileNotFoundError or PermissionError reaching the outer handler stops the
    walk and the counts accumulated up to that point are returned. -/
def get_current_backup_size (evs : List WalkEv) (backup_start_time : ℚ) : Nat × Nat :=
  match evs with
  | [] => (0, 0)
  | WalkEv.abort :: _ => (0, 0)
  | WalkEv.file name stat :: rest =>
    let r := get_current_backup_size rest backup_start_time
    if name = error_log_name then r
    else
      match stat with
      | none => r
      | some (mtime, size) =>
        if backup_start_time ≤ mtime then (size + r.1, 1 + r.2) else r

/-- sizes of exactly the files the sampler is specified to count: stat succeeded,
    name is not the diagnostic log, modification time at or after session start. -/
def countedSizes (evs : List WalkEv) (backup_start_time : ℚ) : List Nat :=
  evs.filterMap fun e =>
    match e with
    | WalkEv.file name (some (mtime, size)) =>
      if name ≠ error_log_name ∧ backup_start_time ≤ mtime then some size else none
    | _ => none

/-- the loop-local estimator state of perform_backup_with_progress
    (lines 461-464): last_size, last_update_time, transfer_rate, rate_samples. -/
structure RateState where
  last_size : ℚ
  last_update_time : ℚ
  transfer_rate : ℚ
  rate_samples : List ℚ
deriving DecidableEq

/-- max_samples (line 465): fixed capacity of the rate window. -/
def max_samples : Nat := 5

/-- the estimator update performed once per tick (lines 476-488): accept the
    sample iff at least one tick elapsed and the cumulative size did not shrink;
    on acceptance push the instantaneous rate, evict the oldest sample when the
    window overflows, and set the smoothed rate to the window mean. -/
def rateUpdate (s : RateState) (current_time current_size : ℚ) : RateState :=
  let time_diff := current_time - s.last_update_time
  if 1 ≤ time_diff ∧ s.last_size ≤ current_size then
    let size_diff := current_size - s.last_size
    let instant_rate := size_diff / time_diff
    let samples0 := s.rate_samples ++ [instant_rate]
    let samples := if max_samples < samples0.length then samples0.drop 1 else samples0
    { last_size := current_size
      last_update_time := current_time
      transfer_rate := samples.sum / (samples.length : ℚ)
      rate_samples := samples }
  else s

/-- estimator state at loop entry (lines 461-464): last_size = 0, last update at
    start_time, zero rate, empty window. -/
def initRateState (start_time : ℚ) : RateState :=
  { last_size := 0, last_update_time := start_time, transfer_rate := 0, rate_samples := [] }

/-- feeding a sequence of (time, cumulative size) samples through the estimator. -/
def runEstimator (start_time : ℚ) (samples : List (ℚ × ℚ)) : RateState :=
  samples.foldl (fun s p => rateUpdate s p.1 p.2) (initRateState start_time)

/-- per-tick ETA computation (lines 490-494). -/
def computeEta (transfer_rate total_size current_size : ℚ) : ℚ :=
  if 0 < transfer_rate then (total_size - current_size) / transfer_rate else 0

/-- per-tick progress percentage (line 473), clamped to 100. -/
def progress_pct (current_size total_size : ℚ) : ℚ :=
  min (current_size / total_size * 100) 100

/-- Python a % b on nonnegative operands with positive modulus. -/
def pymod (a b : ℚ) : ℚ := a - b * ⌊a / b⌋

/-- two-digit decimal rendering, Python %02d on nonnegative values. -/
def two_digit (n : Nat) : String := if n < 10 then "0" ++ toString n else toString n

/-- format_time (lines 602-609): negative input clamped to 0, then HH:MM:SS. -/
def format_time (seconds : ℚ) : String :=
  let s := if seconds < 0 then (0 : ℚ) else seconds
  let hours := (⌊s / 3600⌋).toNat
  let minutes := (⌊pymod s 3600 / 60⌋).toNat
  let secs := (⌊pymod s 60⌋).toNat
  two_digit hours ++ ":" ++ two_digit minutes ++ ":" ++ two_digit secs

/-- cleanup_interrupted_backup (lines 278-288): the tree is removed iff the
    directory was created by this run and still exists; otherwise it is left in
    place.  The result records whether removal was performed. -/
def cleanup_interrupted_backup (dir_created_by_us loc_exists : Bool) : Bool :=
  dir_created_by_us && loc_exists

/-- the cleanup decision of copy_files_from_android (lines 582-583) composed with
    cleanup_interrupted_backup: whether the destination tree is deleted for a run
    with the given outcome and directory provenance. -/
def backup_dir_deleted (success dir_created_by_us loc_exists : Bool) : Bool :=
  if !success && dir_created_by_us then
    cleanup_interrupted_backup dir_created_by_us loc_exists
  else false

/-- estimate_backup_size (lines 353-374): the operator's console entries in
    order; none models a ValueError raised by float().  The loop skips invalid
    and nonpositive entries and returns the first positive entry times 1024^3
    bytes; none when no entry ever qualifies (the loop never returns). -/
def estimate_backup_size : List (Option ℚ) → Option ℚ
  | [] => none
  | none :: rest => estimate_backup_size rest
  | some gb :: rest => if gb ≤ 0 then estimate_backup_size rest else some (gb * 1024 ^ 3)

/-- what one loop tick observes of the environment: the sampled destination size
    and file count, and the poll() result — none while the subprocess is still
    running, the exit code once it has terminated. -/
structure Tick where
  size : Nat
  count : Nat
  poll : Option Int
deriving DecidableEq

/-- events of a monitor run, in program order. -/
inductive Ev where
  | sleep : Ev
  | sample (size : Nat) : Ev
  | render : Ev
  | poll (r : Option Int) : Ev
  | finalSample (size : Nat) : Ev
deriving DecidableEq

/-- outcome of a run whose subprocess exited. -/
structure RunOutcome where
  success : Bool
  markerWritten : Bool
  bytesTransferred : Nat
  fileCount : Nat
  exitCode : Int
deriving DecidableEq

/-- the polling loop (lines 467-508): sleep one tick, sample the destination,
    update the estimator, render the status line, then leave the loop iff poll()
    is no longer None.  Returns the exit code and the event trace; none when the
    supplied ticks never report exit (the loop is still running). -/
def monitorLoop (ticks : List Tick) (rs : RateState) (now : ℚ) (tr : List Ev) :
    Option (Int × List Ev) :=
  match ticks with
  | [] => none
  | t :: rest =>
    let now1 := now + 1
    let rs1 := rateUpdate rs now1 (t.size : ℚ)
    let tr1 := tr ++ [Ev.sleep, Ev.sample t.size, Ev.render, Ev.poll t.poll]
    match t.poll with
    | some c => some (c, tr1)
    | none => monitorLoop rest rs1 now1 tr1

/-- perform_backup_with_progress after source verification (lines 444-550): run
    the polling loop until the subprocess exits, take one more size sample, then
    judge the run successful iff that final size is positive — the exit code is
    never consulted — and write the completion marker file only on success.
    finalSize and finalCount are what the post-loop get_current_backup_size call
    (line 510) returns. -/
def perform_backup_with_progress (start_time : ℚ) (ticks : List Tick)
    (finalSize finalCount : Nat) : Option (RunOutcome × List Ev) :=
  match monitorLoop ticks (initRateState start_time) start_time [] with
  | none => none
  | some (c, tr) =>
    some ({ success := decide (0 < finalSize)
            markerWritten := decide (0 < finalSize)
            bytesTransferred := finalSize
            fileCount := finalCount
            exitCode := c },
          tr ++ [Ev.finalSample finalSize])

/-- C2: the destination tree is deleted only after a non-successful run whose
directory was created by this run; a pre-existing (merge-mode) directory is never
deleted regardless of outcome, and a successful run never triggers deletion. -/
theorem cleanup_only_when_created_and_failed (success created loc_exists : Bool) :
    (backup_dir_deleted success created loc_exists = true →
      created = true ∧ success = false) ∧
    (created = false → backup_dir_deleted success created loc_exists = false) ∧
    (success = true → backup_dir_deleted success created loc_exists = false) := by
  cases success <;> cases created <;> cases loc_exists <;>
    simp [backup_dir_deleted, cleanup_interrupted_backup]

/-- witness for C2: after a successful run the directory is not deleted even when
it was created by the monitor and still exists. -/
theorem cleanup_only_when_created_and_failed_witness :
    backup_dir_deleted true true true = false :=
  (cleanup_only_when_created_and_failed true true true).2.2 rfl

/-- C6: a sample whose cumulative size is strictly below the last accepted size
is ignored: the whole estimator state (window, smoothed rate, last accepted size
and time) is unchanged. -/
theorem shrinking_sample_ignored (s : RateState) (t sz : ℚ) (h : sz < s.last_size) :
    rateUpdate s t sz = s := by
  have hne : ¬(1 ≤ t - s.last_update_time ∧ s.last_size ≤ sz) := by
    rintro ⟨-, h2⟩
    exact absurd h2 (not_le.mpr h)
  simp only [rateUpdate, if_neg hne]

/-- witness for C6: a concrete shrinking sample leaves a concrete state intact. -/
theorem shrinking_sample_ignored_witness :
    rateUpdate { last_size := 10, last_update_time := 0, transfer_rate := 2,
                 rate_samples := [2] } 5 3
      = { last_size := 10, last_update_time := 0, transfer_rate := 2,
          rate_samples := [2] } :=
  shrinking_sample_ignored _ 5 3 (by norm_num)

/-- C8: with zero smoothed rate the ETA is 0 (never negative or infinite); with
positive rate the ETA is (total − current) / rate; and any negative ETA renders
exactly like 0 in HH:MM:SS form. -/
theorem eta_reported_zero_and_clamped (rate total current : ℚ) :
    (rate = 0 → computeEta rate total current = 0) ∧
    (0 < rate → computeEta rate total current = (total - current) / rate) ∧
    (∀ e : ℚ, e < 0 → format_time e = format_time 0) := by
  refine ⟨?_, ?_, ?_⟩
  · intro h
    subst h
    simp [computeEta]
  · intro h
    simp only [computeEta, if_pos h]
  · intro e he
    simp [format_time, he]

/-- witness for C8: concrete zero-rate ETA, positive-rate ETA, and negative-ETA
rendering. -/
theorem eta_reported_zero_and_clamped_witness :
    computeEta 0 10 3 = 0 ∧ computeEta 2 10 4 = 3 ∧ format_time (-7) = format_time 0 := by
  refine ⟨(eta_reported_zero_and_clamped 0 10 3).1 rfl, ?_,
    (eta_reported_zero_and_clamped 0 10 3).2.2 (-7) (by norm_num)⟩
  have h := (eta_reported_zero_and_clamped 2 10 4).2.1 (by norm_num)
  rw [h]
  norm_num

/-- C10: estimate_backup_size only ever returns a strictly positive byte count
(the first operator entry that parses and is positive, times 1024^3), so the
progress computation divides by a nonzero total. -/
theorem estimate_backup_size_positive (inputs : List (Option ℚ)) (v : ℚ)
    (h : estimate_backup_size inputs = some v) : 0 < v ∧ v ≠ 0 := by
  induction inputs with
  | nil => simp [estimate_backup_size] at h
  | cons e rest ih =>
    cases e with
    | none => exact ih (by simpa [estimate_backup_size] using h)
    | some gb =>
      by_cases hg : gb ≤ 0
      · exact ih (by simpa [estimate_backup_size, hg] using h)
      · have hv : v = gb * 1024 ^ 3 := by
          simp only [estimate_backup_size, if_neg hg, Option.some.injEq] at h
          exact h.symm
        push_neg at hg
        have hpos : 0 < v := by
          rw [hv]
          exact mul_pos hg (by norm_num)
        exact ⟨hpos, ne_of_gt hpos⟩

/-- witness for C10: the operator first mistypes, then enters nonpositive sizes,
then 32; the returned total is 32 GiB and is strictly positive. -/
theorem estimate_backup_size_positive_witness :
    estimate_backup_size [none, some (-2), some 0, some 32] = some (32 * 1024 ^ 3) ∧
      (0 < (32 * 1024 ^ 3 : ℚ) ∧ (32 * 1024 ^ 3 : ℚ) ≠ 0) := by
  have h : estimate_backup_size [none, some (-2), some 0, some 32]
      = some (32 * 1024 ^ 3) := by
    norm_num [estimate_backup_size]
  exact ⟨h, estimate_backup_size_positive _ _ h⟩

/-- counterexample to C4 as stated: when the walk aborts after one already
counted file, the sampler returns the partial totals (10 bytes, 1 file), not
(0, 0). -/
theorem sampler_abort_zero_counterexample :
    get_current_backup_size [WalkEv.file ("a") (some (5, 10)), WalkEv.abort] 0 = (10, 1) ∧
    get_current_backup_size [WalkEv.file ("a") (some (5, 10)), WalkEv.abort] 0 ≠ (0, 0) := by
  constructor <;> decide

/-- C4 (amended): when a NotFoundError (or PermissionError) escapes to the outer
handler mid-walk, the sampler returns the totals accumulated before the error —
in particular (0, 0) when the error occurs before any file is counted — and the
error never escapes: events after the abort never influence the result. -/
theorem sampler_abort_returns_partial (pre rest : List WalkEv) (start : ℚ) :
    get_current_backup_size (pre ++ WalkEv.abort :: rest) start
      = get_current_backup_size pre start ∧
    get_current_backup_size (WalkEv.abort :: rest) start = (0, 0) := by
  constructor
  · induction pre with
    | nil => simp [get_current_backup_size]
    | cons e pre ih =>
      cases e with
      | abort => simp [get_current_backup_size]
      | file name stat => simp [get_current_backup_size, ih]
  · rfl

/-- counterexample to C3 as stated: a line matching the spec's case-insensitive
permission-denied marker is nevertheless discarded by the code, because the code
matches 'Permission denied' case-sensitively. -/
theorem log_marker_case_counterexample :
    spec_failure_marker ("PERMISSION DENIED: /a/b") = true ∧
    log_errors_thread [("12:00:00", "PERMISSION DENIED: /a/b")] = [] := by
  constructor <;> decide

/-- C3 (amended): a line is appended to the diagnostic log, timestamped, if and
only if its stripped form is nonempty and contains 'Permission denied'
case-sensitively, or 'failed' or 'cannot' case-insensitively; every other line
is discarded. -/
theorem log_appended_iff (ts line out : String) :
    out ∈ log_errors_thread [(ts, line)] ↔
      (out = "[" ++ ts ++ "] " ++ pystrip line ++ "\n" ∧ pystrip line ≠ "" ∧
        (strContains (pystrip line) permission_marker = true ∨
         strContains (pylower (pystrip line)) failed_marker = true ∨
         strContains (pylower (pystrip line)) cannot_marker = true)) := by
  by_cases h : pystrip line ≠ "" ∧ failure_marker (pystrip line) = true
  · have hl : log_errors_thread [(ts, line)] = ["[" ++ ts ++ "] " ++ pystrip line ++ "\n"] := by
      simp [log_errors_thread, h]
    rw [hl]
    simp only [List.mem_singleton]
    constructor
    · intro he
      refine ⟨he, h.1, ?_⟩
      have h2 := h.2
      simp only [failure_marker, Bool.or_eq_true] at h2
      tauto
    · intro hc
      exact hc.1
  · have hl : log_errors_thread [(ts, line)] = [] := by
      simp [log_errors_thread, h]
    rw [hl]
    simp only [List.not_mem_nil, false_iff]
    intro hc
    refine h ⟨hc.2.1, ?_⟩
    simp only [failure_marker, Bool.or_eq_true]
    tauto

/-- witness for C3 (amended): a concrete line containing the lowercased marker
failed is appended with its timestamp prefix. -/
theorem log_appended_iff_witness :
    ("[" ++ "12:00:00" ++ "] " ++ pystrip (" adb: failed to stat\n") ++ "\n") ∈
      log_errors_thread [("12:00:00", " adb: failed to stat\n")] :=
  (log_appended_iff ("12:00:00") (" adb: failed to stat\n") _).mpr
    ⟨rfl, by decide, Or.inr (Or.inl (by decide))⟩

lemma gcbs_eq_counted (start : ℚ) :
    ∀ evs : List WalkEv, WalkEv.abort ∉ evs →
      get_current_backup_size evs start
        = ((countedSizes evs start).sum, (countedSizes evs start).length) := by
  intro evs
  induction evs with
  | nil => intro _; simp [get_current_backup_size, countedSizes]
  | cons e rest ih =>
    intro h
    have h' : WalkEv.abort ∉ rest := fun hm => h (List.mem_cons_of_mem _ hm)
    have ih' := ih h'
    cases e with
    | abort => exact absurd (List.mem_cons_self _ _) h
    | file name stat =>
      by_cases hn : name = error_log_name
      · subst hn
        cases stat with
        | none =>
          simp [get_current_backup_size, countedSizes, List.filterMap_cons, ih']
        | some p =>
          obtain ⟨m, sz⟩ := p
          simp [get_current_backup_size, countedSizes, List.filterMap_cons, ih']
      · cases stat with
        | none => simp [get_current_backup_size, countedSizes, List.filterMap_cons, hn, ih']
        | some p =>
          obtain ⟨m, sz⟩ := p
          by_cases hm : start ≤ m
          · simp [get_current_backup_size, countedSizes, List.filterMap_cons, hn, hm, ih',
              Nat.add_comm]
          · simp [get_current_backup_size, countedSizes, List.filterMap_cons, hn, hm, ih']

/-- C5: on a walk that raises no outer error the sampler counts exactly the
files whose stat succeeds, whose name is not backup_errors.log, and whose
modification time is at or after session start — files modified strictly before
session start, files whose stat fails, and the diagnostic log are all excluded —
and inserting the diagnostic log file anywhere in the walk never changes the
result. -/
theorem sampler_counts_exactly (evs : List WalkEv) (start : ℚ)
    (h : WalkEv.abort ∉ evs) :
    get_current_backup_size evs start
      = ((countedSizes evs start).sum, (countedSizes evs start).length) ∧
    ∀ (pre post : List WalkEv) (stat : Option (ℚ × Nat)),
      get_current_backup_size (pre ++ WalkEv.file error_log_name stat :: post) start
        = get_current_backup_size (pre ++ post) start := by
  refine ⟨gcbs_eq_counted start evs h, ?_⟩
  intro pre post stat
  induction pre with
  | nil =>
    cases stat with
    | none => simp [get_current_backup_size]
    | some p => simp [get_current_backup_size]
  | cons e pre ih =>
    cases e with
    | abort => simp [get_current_backup_size]
    | file n st => simp [get_current_backup_size, ih]

/-- witness for C5: a tree holding one fresh file, the diagnostic log, one stale
file and one unreadable file counts exactly the fresh file. -/
theorem sampler_counts_exactly_witness :
    get_current_backup_size
        [WalkEv.file ("a.jpg") (some (10, 100)),
         WalkEv.file ("backup_errors.log") (some (10, 7)),
         WalkEv.file ("old.jpg") (some (0, 50)),
         WalkEv.file ("locked.jpg") none] 5
      = ((countedSizes
            [WalkEv.file ("a.jpg") (some (10, 100)),
             WalkEv.file ("backup_errors.log") (some (10, 7)),
             WalkEv.file ("old.jpg") (some (0, 50)),
             WalkEv.file ("locked.jpg") none] 5).sum,
         (countedSizes
            [WalkEv.file ("a.jpg") (some (10, 100)),
             WalkEv.file ("backup_errors.log") (some (10, 7)),
             WalkEv.file ("old.jpg") (some (0, 50)),
             WalkEv.file ("locked.jpg") none] 5).length) :=
  (sampler_counts_exactly _ 5 (by decide)).1

/-- invariant carried by the estimator state: nonnegative smoothed rate, window
within capacity, all window entries nonnegative. -/
def RateInv (s : RateState) : Prop :=
  0 ≤ s.transfer_rate ∧ s.rate_samples.length ≤ max_samples ∧
    ∀ r ∈ s.rate_samples, 0 ≤ r

lemma rateUpdate_preserves (s : RateState) (t sz : ℚ) (h : RateInv s) :
    RateInv (rateUpdate s t sz) := by
  obtain ⟨h1, h2, h3⟩ := h
  by_cases hc : 1 ≤ t - s.last_update_time ∧ s.last_size ≤ sz
  · obtain ⟨ht, hs⟩ := hc
    have hrpos : 0 ≤ (sz - s.last_size) / (t - s.last_update_time) :=
      div_nonneg (sub_nonneg.mpr hs) (by linarith)
    have hall0 : ∀ x ∈ s.rate_samples ++ [(sz - s.last_size) / (t - s.last_update_time)],
        0 ≤ x := by
      intro x hx
      rcases List.mem_append.mp hx with hx | hx
      · exact h3 x hx
      · rw [List.mem_singleton] at hx
        subst hx
        exact hrpos
    simp only [rateUpdate, if_pos (And.intro ht hs)]
    by_cases hlen :
        max_samples < (s.rate_samples ++ [(sz - s.last_size) / (t - s.last_update_time)]).length
    · rw [if_pos hlen]
      have hall : ∀ x ∈ (s.rate_samples ++ [(sz - s.last_size) / (t - s.last_update_time)]).drop 1,
          0 ≤ x := fun x hx => hall0 x (List.drop_subset _ _ hx)
      refine ⟨?_, ?_, hall⟩
      · exact div_nonneg (List.sum_nonneg hall) (Nat.cast_nonneg _)
      · simp only [List.length_drop, List.length_append, List.length_singleton]
        omega
    · rw [if_neg hlen]
      refine ⟨?_, ?_, hall0⟩
      · exact div_nonneg (List.sum_nonneg hall0) (Nat.cast_nonneg _)
      · show (s.rate_samples ++ [(sz - s.last_size) / (t - s.last_update_time)]).length
          ≤ max_samples
        omega
  · simp only [rateUpdate, if_neg hc]
    exact ⟨h1, h2, h3⟩

lemma runEstimator_inv (start : ℚ) (samples : List (ℚ × ℚ)) :
    RateInv (runEstimator start samples) := by
  have hbase : RateInv (initRateState start) := by
    refine ⟨le_refl 0, ?_, ?_⟩ <;> simp [initRateState, max_samples]
  have hgen : ∀ (l : List (ℚ × ℚ)) (s : RateState), RateInv s →
      RateInv (l.foldl (fun s p => rateUpdate s p.1 p.2) s) := by
    intro l
    induction l with
    | nil => intro s hs; simpa using hs
    | cons p rest ih =>
      intro s hs
      exact ih _ (rateUpdate_preserves _ _ _ hs)
  exact hgen samples _ hbase

/-- C7: for every monotonically non-decreasing sample sequence, after every
update the smoothed rate is nonnegative and the window never exceeds the fixed
capacity max_samples = 5; on overflow the oldest entry is evicted first. -/
theorem rate_nonneg_window_bounded (start : ℚ) (samples : List (ℚ × ℚ))
    (_hmono : samples.Pairwise (fun a b => a.2 ≤ b.2)) :
    (∀ pfx : List (ℚ × ℚ), pfx.IsPrefix samples →
        0 ≤ (runEstimator start pfx).transfer_rate ∧
        (runEstimator start pfx).rate_samples.length ≤ max_samples) ∧
    (∀ (s : RateState) (t sz : ℚ), s.rate_samples.length = max_samples →
        1 ≤ t - s.last_update_time → s.last_size ≤ sz →
        (rateUpdate s t sz).rate_samples =
          s.rate_samples.drop 1 ++ [(sz - s.last_size) / (t - s.last_update_time)]) := by
  constructor
  · intro pfx _
    obtain ⟨h1, h2, -⟩ := runEstimator_inv start pfx
    exact ⟨h1, h2⟩
  · intro s t sz hlen ht hs
    simp only [rateUpdate, if_pos (And.intro ht hs)]
    have hover :
        max_samples < (s.rate_samples ++ [(sz - s.last_size) / (t - s.last_update_time)]).length := by
      simp only [List.length_append, List.length_singleton, hlen]
      omega
    rw [if_pos hover]
    show (s.rate_samples ++ [(sz - s.last_size) / (t - s.last_update_time)]).drop 1 = _
    rw [List.drop_append_of_le_length (by rw [hlen]; norm_num [max_samples])]

/-- witness for C7: a concrete non-decreasing sample sequence satisfies the
window invariants. -/
theorem rate_nonneg_window_bounded_witness :
    (∀ pfx : List (ℚ × ℚ), pfx.IsPrefix [((1 : ℚ), (0 : ℚ)), (2, 3)] →
        0 ≤ (runEstimator 0 pfx).transfer_rate ∧
        (runEstimator 0 pfx).rate_samples.length ≤ max_samples) ∧
    (∀ (s : RateState) (t sz : ℚ), s.rate_samples.length = max_samples →
        1 ≤ t - s.last_update_time → s.last_size ≤ sz →
        (rateUpdate s t sz).rate_samples =
          s.rate_samples.drop 1 ++ [(sz - s.last_size) / (t - s.last_update_time)]) :=
  rate_nonneg_window_bounded 0 [((1 : ℚ), (0 : ℚ)), (2, 3)]
    (by norm_num [List.pairwise_cons])

/-- C1: for every run whose subprocess has exited, the outcome is successful iff
the final sampled size is strictly positive — the exit code is never consulted:
there is a run with nonzero exit code and positive bytes judged successful, and
every zero-byte run is judged failed with no completion marker written. -/
theorem success_iff_final_bytes_positive :
    (∀ (st : ℚ) (ticks : List Tick) (fs fc : Nat) (o : RunOutcome) (tr : List Ev),
        perform_backup_with_progress st ticks fs fc = some (o, tr) →
        ((o.success = true ↔ 0 < fs) ∧ (fs = 0 → o.markerWritten = false))) ∧
    (∃ (st : ℚ) (ticks : List Tick) (fs fc : Nat) (o : RunOutcome) (tr : List Ev),
        perform_backup_with_progress st ticks fs fc = some (o, tr) ∧
        o.exitCode ≠ 0 ∧ 0 < o.bytesTransferred ∧ o.success = true) := by
  constructor
  · intro st ticks fs fc o tr h
    unfold perform_backup_with_progress at h
    cases hm : monitorLoop ticks (initRateState st) st [] with
    | none => rw [hm] at h; exact absurd h (by simp)
    | some ct =>
      obtain ⟨c, tr0⟩ := ct
      rw [hm] at h
      simp only [Option.some.injEq, Prod.mk.injEq] at h
      obtain ⟨ho, -⟩ := h
      subst ho
      constructor
      · simp
      · intro hz
        subst hz
        simp
  · refine ⟨0, [⟨5, 1, some 1⟩], 5, 1, _, _, rfl, ?_, ?_, ?_⟩ <;> decide

/-- witness for C1: the exit-code-1 run with 5 final bytes is judged successful,
and 5 = 0 would be needed for the marker to be suppressed. -/
theorem success_iff_final_bytes_positive_witness :
    (({ success := true, markerWritten := true, bytesTransferred := 5, fileCount := 1,
        exitCode := 1 } : RunOutcome).success = true ↔ 0 < 5) ∧
    ((5 : Nat) = 0 →
      ({ success := true, markerWritten := true, bytesTransferred := 5, fileCount := 1,
         exitCode := 1 } : RunOutcome).markerWritten = false) :=
  success_iff_final_bytes_positive.1 0 [⟨5, 1, some 1⟩] 5 1 _ _ rfl

/-- traces produced before loop exit contain no final sample. -/
def noFinalSample (l : List Ev) : Prop := ∀ e ∈ l, ∀ n, e ≠ Ev.finalSample n

lemma monitorLoop_trace (ticks : List Tick) :
    ∀ (rs : RateState) (now : ℚ) (tr : List Ev) (c : Int) (tr' : List Ev),
      monitorLoop ticks rs now tr = some (c, tr') → noFinalSample tr →
      ∃ pre, tr' = pre ++ [Ev.poll (some c)] ∧ noFinalSample pre := by
  induction ticks with
  | nil => intro rs now tr c tr' h; simp [monitorLoop] at h
  | cons t rest ih =>
    intro rs now tr c tr' h hnf
    simp only [monitorLoop] at h
    cases hp : t.poll with
    | some c' =>
      rw [hp] at h
      simp only [Option.some.injEq, Prod.mk.injEq] at h
      obtain ⟨hc, htr⟩ := h
      subst hc
      refine ⟨tr ++ [Ev.sleep, Ev.sample t.size, Ev.render], ?_, ?_⟩
      · rw [← htr]
        simp
      · intro e he n
        rcases List.mem_append.mp he with he | he
        · exact hnf e he n
        · simp only [List.mem_cons, List.not_mem_nil, or_false] at he
          rcases he with rfl | rfl | rfl <;> simp
    | none =>
      rw [hp] at h
      refine ih _ _ _ _ _ h ?_
      intro e he n
      rcases List.mem_append.mp he with he | he
      · exact hnf e he n
      · simp only [List.mem_cons, List.not_mem_nil, or_false] at he
        rcases he with rfl | rfl | rfl | rfl <;> simp

/-- C9: in every run that reaches completion, the event trace ends with the
liveness check that observed termination followed immediately by the final size
sample; no final sample occurs anywhere earlier in the trace. -/
theorem final_sample_after_termination (st : ℚ) (ticks : List Tick) (fs fc : Nat)
    (o : RunOutcome) (tr : List Ev)
    (h : perform_backup_with_progress st ticks fs fc = some (o, tr)) :
    ∃ (pre : List Ev) (c : Int),
      tr = pre ++ [Ev.poll (some c), Ev.finalSample fs] ∧
      ∀ e ∈ pre, ∀ n, e ≠ Ev.finalSample n := by
  unfold perform_backup_with_progress at h
  cases hm : monitorLoop ticks (initRateState st) st [] with
  | none => rw [hm] at h; exact absurd h (by simp)
  | some ct =>
    obtain ⟨c, tr0⟩ := ct
    rw [hm] at h
    simp only [Option.some.injEq, Prod.mk.injEq] at h
    obtain ⟨-, htr⟩ := h
    obtain ⟨pre, hpre, hnf⟩ :=
      monitorLoop_trace ticks _ _ _ _ _ hm (by intro e he; simp at he)
    refine ⟨pre, c, ?_, hnf⟩
    rw [← htr, hpre]
    simp

/-- witness for C9: the one-tick run's trace decomposes as required. -/
theorem final_sample_after_termination_witness :
    ∃ (pre : List Ev) (c : Int),
      ([Ev.sleep, Ev.sample 5, Ev.render, Ev.poll (some 1), Ev.finalSample 5] : List Ev)
        = pre ++ [Ev.poll (some c), Ev.finalSample 5] ∧
      ∀ e ∈ pre, ∀ n, e ≠ Ev.finalSample n :=
  final_sample_after_termination 0 [⟨5, 1, some 1⟩] 5 1
    { success := true, markerWritten := true, bytesTransferred := 5, fileCount := 1,
      exitCode := 1 } _ rfl

end Archiver
